import Mathlib

/-!
Verification development for the shop-catalog-tools catalog ingestion
pipeline.  Shallow embedding of:

* the product document model of src/src/schema.py (offer shapes,
  ProductGroup identity, availability default);
* the snapshot resolver of src/src/utils.py;
* the catalog loader of src/src/load_to_db.py (both the DuckDB and the
  SQLite paths, including per-file error handling and the dedup SQL);
* the search indexer of src/src/index_catalog.py (the derived-field
  extraction and the batch/commit/cancel control flow).

Machine floats of the source are modelled as rationals, database rows as
lists, and raised exceptions as Except/Option results.
-/

namespace ShopCatalog

deriving instance DecidableEq for Except

/-! ### Python truthiness helpers -/

/-- Python truthiness of an optional string: None and "" are falsy. -/
def truthyOptStr : Option String → Bool
  | none => false
  | some s => s ≠ ""

/-- Python truthiness of an optional list: None and [] are falsy. -/
def truthyOptList : Option (List α) → Bool
  | none => false
  | some l => !l.isEmpty

/-- Python truthiness of an optional number: None and 0 are falsy. -/
def truthyOptQ : Option ℚ → Bool
  | none => false
  | some x => decide (x ≠ 0)

/-- Python `a if a is not None else b`. -/
def coalesce (a b : Option ℚ) : Option ℚ :=
  match a with
  | some x => some x
  | none => b

/-- Python `a if a else b` on optional numbers (truthiness, not None-ness). -/
def pyOrQ (a b : Option ℚ) : Option ℚ :=
  if truthyOptQ a then a else b

/-! ### Document model (src/src/schema.py) -/

/-- Product.AvailabilityEnum from src/src/schema.py. -/
inductive AvailabilityEnum where
  | AVAILABILITY_UNSPECIFIED
  | IN_STOCK
  | OUT_OF_STOCK
  | PREORDER
  | BACKORDER
deriving DecidableEq, Repr

/-- Seller organization; the field the pipeline reads is its name. -/
structure Organization where
  name : Option String
deriving DecidableEq, Repr

/-- Schema.org Offer model (src/src/schema.py, class Offer). -/
structure Offer where
  name : Option String
  price : ℚ
  priceCurrency : String
  seller : Option Organization
deriving DecidableEq, Repr

/-- Wrapper class for a list of offers (src/src/schema.py, class Offers). -/
structure Offers where
  offers : Option (List Offer)
  url : Option String
deriving DecidableEq, Repr

/-- Schema.org AggregateOffer model (src/src/schema.py, class AggregateOffer). -/
structure AggregateOffer where
  offerCount : Option Int
  highPrice : Option ℚ
  lowPrice : Option ℚ
  priceCurrency : String
  seller : Option Organization
  offers : Option (List Offer)
deriving DecidableEq, Repr

/-- The polymorphic offers field of a product: a single Offer, an
AggregateOffer, or the Offers list wrapper. -/
inductive OffersUnion where
  | single (o : Offer)
  | aggregate (a : AggregateOffer)
  | wrapper (w : Offers)
deriving DecidableEq, Repr

/-- ProductGroup identity fields (src/src/schema.py, class ProductGroup);
its equality and hash read url only, productGroupID is carried along. -/
structure ProductGroup where
  url : Option String
  productGroupID : Option String
  name : Option String
deriving DecidableEq, Repr

/-- ProductGroup.__eq__ (src/src/schema.py lines 666-672): between two
ProductGroup objects it returns False when either url is None, and
otherwise compares the urls. -/
def ProductGroup.pyEq (a b : ProductGroup) : Bool :=
  match a.url, b.url with
  | some u, some v => u == v
  | _, _ => false

/-- ProductGroup.__hash__ (src/src/schema.py lines 660-664): raises
ValueError when url is None, else returns hash(url). -/
def ProductGroup.pyHash (p : ProductGroup) : Except String UInt64 :=
  match p.url with
  | none => .error "Cannot hash ProductGroup without url"
  | some u => .ok (hash u)

/-- A source record for Product construction: the availability entry is
either absent (none) or explicitly present with a value (some v, where v
itself may be null). -/
structure ProductSource where
  availability : Option (Option AvailabilityEnum)
  name : Option String
deriving DecidableEq, Repr

/-- The pydantic default of Product.availability
(src/src/schema.py line 547-548: default=AvailabilityEnum.IN_STOCK). -/
def availabilityDefault : Option AvailabilityEnum := some .IN_STOCK

/-- The availability-relevant fields of a constructed Product. -/
structure ProductDoc where
  availability : Option AvailabilityEnum
  name : Option String
deriving DecidableEq, Repr

/-- Pydantic construction of a Product from a source record: an absent
availability field takes the declared default. -/
def Product.ofRecord (r : ProductSource) : ProductDoc :=
  { availability := r.availability.getD availabilityDefault
    name := r.name }

/-! ### Indexer document model

Fields of the product document as consumed by extract_derived_fields in
src/src/index_catalog.py, with the shapes of the document model
(src/src/schema.py and spec section 3). -/

/-- A color entry: display label plus optional swatch URL. -/
structure Color where
  label : String
  swatch_url : Option String
deriving DecidableEq, Repr

/-- Color information of a product. -/
structure ColorInfo where
  color_families : Option (List String)
  colors : Option (List Color)
deriving DecidableEq, Repr

/-- A product category. -/
structure Category where
  name : Option String
  url : Option String
deriving DecidableEq, Repr

/-- Product rating summary. -/
structure Rating where
  average_rating : Option ℚ
  rating_count : Option Int
deriving DecidableEq, Repr

/-- A product image. -/
structure Image where
  url : Option String
deriving DecidableEq, Repr

/-- product.fit may hold a plain string or a list of strings. -/
inductive FitVal where
  | str (s : String)
  | many (xs : List String)
deriving DecidableEq, Repr

/-- Product brand; the indexer reads its name. -/
structure Brand where
  name : Option String
deriving DecidableEq, Repr

/-- The product document as accessed by extract_derived_fields. -/
structure SearchProduct where
  current_price : Option ℚ
  original_price : Option ℚ
  color_info : Option ColorInfo
  categories : Option (List Category)
  rating : Option Rating
  image : Option Image
  images : Option (List Image)
  fit : Option FitVal
  offers : Option OffersUnion
  brand : Option Brand
  brand_name : Option String
deriving DecidableEq, Repr

/-- The derived search-document fields produced by extract_derived_fields.
A none value is a field the function leaves unset (or sets to None); such
fields are omitted when the document is written. -/
structure DerivedDoc where
  current_price : Option ℚ
  original_price : Option ℚ
  high_price : Option ℚ
  low_price : Option ℚ
  color_families : Option String
  color_labels : Option String
  color_swatches : Option (List String)
  categories_text : Option String
  rating_value : Option ℚ
  review_count : Option Int
  image_url : Option String
  image_urls : Option (List String)
  fit : Option String
  seller_names : Option String
  offer_urls : Option (List String)
  offer_count : Nat
  brand_name : Option String
deriving DecidableEq, Repr

/-- hasattr(x, "offers") and the attribute value: the Offers wrapper and
AggregateOffer expose an offers list; a single Offer has no such
attribute. -/
def OffersUnion.offersAttr : OffersUnion → Option (List Offer)
  | .single _ => none
  | .aggregate a => a.offers
  | .wrapper w => w.offers

/-- hasattr(x, "seller") and the attribute value: Offer and AggregateOffer
expose a seller; the Offers wrapper does not. -/
def OffersUnion.sellerAttr : OffersUnion → Option Organization
  | .single o => o.seller
  | .aggregate a => a.seller
  | .wrapper _ => none

/-- offer.seller.name when the seller is present and its name truthy
(index_catalog.py line 342). -/
def offerSellerName (o : Offer) : Option String :=
  match o.seller with
  | some s =>
    match s.name with
    | some n => if n ≠ "" then some n else none
    | none => none
  | none => none

/-- The elif branch of the offers handling (index_catalog.py lines
344-348): a single offer object exposing a non-null seller counts as one
offer, its truthy seller name is collected. -/
def offersSellerBranch (u : OffersUnion) : Nat × List String :=
  match u.sellerAttr with
  | some s =>
    (1,
      match s.name with
      | some n => if n ≠ "" then [n] else []
      | none => [])
  | none => (0, [])

/-- Offer handling of extract_derived_fields (index_catalog.py lines
330-348): a truthy offers list wins, else a truthy seller attribute, else
zero offers. -/
def offersDerived (offers : Option OffersUnion) : Nat × List String :=
  match offers with
  | none => (0, [])
  | some u =>
    match u.offersAttr with
    | some l =>
      if !l.isEmpty then (l.length, l.filterMap offerSellerName)
      else offersSellerBranch u
    | none => offersSellerBranch u

/-- extract_derived_fields (src/src/index_catalog.py lines 270-361):
derives the flattened search-document fields from the product document and
the two pre-extracted price columns of the database row. -/
def extract_derived_fields (product : SearchProduct)
    (rowPrice rowOriginalPrice : Option ℚ) : DerivedDoc :=
  let price := coalesce rowPrice product.current_price
  let original_price := coalesce rowOriginalPrice product.original_price
  let color_families :=
    match product.color_info with
    | some ci =>
      if truthyOptList ci.color_families then
        some (String.intercalate "," (ci.color_families.getD []))
      else none
    | none => none
  let colorPair : Option String × Option (List String) :=
    match product.color_info with
    | some ci =>
      match ci.colors with
      | some cs =>
        if !cs.isEmpty then
          let labels := cs.map (fun (c : Color) => c.label)
          let swatches := cs.filterMap (fun (c : Color) =>
            match c.swatch_url with
            | some u => if u ≠ "" then some u else none
            | none => none)
          ((if !labels.isEmpty then some (String.intercalate "," labels)
            else none),
           (if !swatches.isEmpty then some swatches else none))
        else (none, none)
      | none => (none, none)
    | none => (none, none)
  let categories_text :=
    match product.categories with
    | some cats =>
      if !cats.isEmpty then
        let names := cats.filterMap (fun (c : Category) =>
          match c.name with
          | some n => if n ≠ "" then some n else none
          | none => none)
        if !names.isEmpty then some (String.intercalate "," names) else none
      else none
    | none => none
  let offerState := offersDerived product.offers
  { current_price := price
    original_price := original_price
    high_price := pyOrQ original_price price
    low_price := pyOrQ price original_price
    color_families := color_families
    color_labels := colorPair.1
    color_swatches := colorPair.2
    categories_text := categories_text
    rating_value :=
      match product.rating with
      | some r => r.average_rating
      | none => none
    review_count :=
      match product.rating with
      | some r => r.rating_count
      | none => none
    image_url :=
      match product.image with
      | some img => img.url
      | none => none
    image_urls :=
      match product.images with
      | some imgs =>
        if !imgs.isEmpty then
          some (imgs.filterMap (fun img =>
            match img.url with
            | some u => if u ≠ "" then some u else none
            | none => none))
        else none
      | none => none
    fit :=
      match product.fit with
      | some (.str s) => if s ≠ "" then some s else none
      | some (.many xs) =>
        if !xs.isEmpty then some (String.intercalate "," xs) else none
      | none => none
    seller_names :=
      if !offerState.2.isEmpty then
        some (String.intercalate "," offerState.2)
      else none
    offer_urls := none
    offer_count := offerState.1
    brand_name :=
      if !(truthyOptStr product.brand_name) then
        match product.brand with
        | some b => b.name
        | none => product.brand_name
      else product.brand_name }

/-! ### Catalog loader (src/src/load_to_db.py)

A parquet row is modelled by its raw record serialization
(extracted_product) together with the productGroupID the database extracts
from it; a file is a list of such rows, and an unreadable file is none. -/

/-- One loader row: extracted key and raw record serialization. -/
structure DBRow where
  key : Option String
  record : String
deriving DecidableEq, Repr

/-- WHERE json_extract_string(extracted_product, 'productGroupID')
IS NOT NULL (load_to_db.py lines 226 and 335). -/
def keyedRows (file : List DBRow) : List DBRow :=
  file.filter (fun r => r.key.isSome)

/-- SQL ordering on optional keys (all relevant keys are non-null). -/
def optStrLe (x y : Option String) : Bool :=
  match x, y with
  | none, _ => true
  | some _, none => false
  | some a, some b => decide (a ≤ b)

/-- ORDER BY product_group_id, extracted_product (load_to_db.py line
235). -/
def rowLe (a b : DBRow) : Bool :=
  if a.key = b.key then decide (a.record ≤ b.record) else optStrLe a.key b.key

/-- DISTINCT ON (product_group_id): keep the first row of each key group
in the given order (load_to_db.py lines 230-236). -/
def distinctOnKey : List DBRow → List DBRow
  | [] => []
  | r :: rest => r :: distinctOnKey (rest.filter (fun x => x.key ≠ r.key))
termination_by l => l.length
decreasing_by
  exact Nat.lt_succ_of_le (List.length_filter_le _ _)

/-- The table created from the first file of a DuckDB batch: key-filtered
rows, sorted by (product_group_id, extracted_product), first row of each
key group kept. -/
def firstFileTable (f : List DBRow) : List DBRow :=
  distinctOnKey ((keyedRows f).mergeSort rowLe)

/-- Whether the rows carry a duplicated product_group_id; the unique index
on the extracted table (load_to_db.py lines 254-257) rejects such an
insert wholesale. -/
def hasDupKeys (rows : List DBRow) : Bool :=
  !decide (rows.map (fun r => r.key)).Nodup

/-- Loader run state: the persisted relation and the two reported
counters total_products and duplicates_skipped. -/
structure LoadState where
  table : List DBRow
  total : Nat
  dups : Nat
deriving DecidableEq, Repr

/-- One iteration of the per-file loop of load_to_duckdb (lines 305-378):
a read failure or a unique-index violation is caught and the file is
skipped; otherwise the rows whose key is not yet present are appended
(INSERT ... WHERE NOT EXISTS) and the counters updated. -/
def duckStep (st : LoadState) (file : Option (List DBRow)) : LoadState :=
  match file with
  | none => st
  | some f =>
    let temp := keyedRows f
    let newRows := temp.filter (fun r => !(st.table.any (fun m => m.key == r.key)))
    if hasDupKeys newRows then st
    else
      { table := st.table ++ newRows
        total := st.total + newRows.length
        dups := st.dups + (f.length - newRows.length) }

/-- load_to_duckdb (src/src/load_to_db.py lines 181-384): the first file
is read outside any try/except, so a read failure raises; it is then
deduplicated via DISTINCT ON; the remaining files are appended with a NOT
EXISTS key check under a per-file try/except. -/
def load_to_duckdb (files : List (Option (List DBRow))) : Except Unit LoadState :=
  match files with
  | [] => .ok { table := [], total := 0, dups := 0 }
  | none :: _ => .error ()
  | some f :: rest =>
    let t := firstFileTable f
    .ok (rest.foldl duckStep
      { table := t, total := t.length, dups := f.length - t.length })

/-- load_parquet_files_to_db, DuckDB path (lines 387-431): with a
non-empty file list the existing tables are dropped (lines 200-202) and
rebuilt from the batch alone; with no files the prior relation is left
untouched. -/
def load_run_duckdb (prior : List DBRow) (files : List (Option (List DBRow))) :
    Except Unit LoadState :=
  match files with
  | [] => .ok { table := prior, total := 0, dups := 0 }
  | _ :: _ => load_to_duckdb files

/-- SELECT DISTINCT non-null productGroupID values of a file (the
_group_ids table of the SQLite path, load_to_db.py lines 102-107). -/
def groupIdsOf (f : List DBRow) : List String :=
  (f.filterMap (fun r => r.key)).dedup

/-- SQLite loader state: persisted relation, recorded group ids, and the
two reported counters. -/
structure SqliteState where
  table : List DBRow
  gids : List String
  total : Nat
  dups : Nat
deriving DecidableEq, Repr

/-- One iteration of the per-file loop of load_to_sqlite (lines 111-172):
a read failure is caught and the file skipped; otherwise a row is
inserted when it passes the NOT EXISTS check against the _group_ids
table — which a NULL key always passes, since SQL NULL equals nothing. -/
def sqliteStep (st : SqliteState) (file : Option (List DBRow)) : SqliteState :=
  match file with
  | none => st
  | some f =>
    let newRows := f.filter (fun r =>
      match r.key with
      | none => true
      | some k => !(st.gids.contains k))
    { table := st.table ++ newRows
      gids := st.gids ++ (groupIdsOf f).filter (fun k => !(st.gids.contains k))
      total := st.total + newRows.length
      dups := st.dups + (f.length - newRows.length) }

/-- load_to_sqlite (src/src/load_to_db.py lines 75-178): the first file is
read outside any try/except (a failure raises) and loaded wholesale via
to_sql(if_exists="replace") — no key filter and no within-file dedup;
remaining files go through the NOT EXISTS insert. -/
def load_to_sqlite (files : List (Option (List DBRow))) : Except Unit SqliteState :=
  match files with
  | [] => .ok { table := [], gids := [], total := 0, dups := 0 }
  | none :: _ => .error ()
  | some f :: rest =>
    .ok (rest.foldl sqliteStep
      { table := f, gids := groupIdsOf f, total := f.length, dups := 0 })

/-! ### Snapshot resolver (src/src/utils.py) -/

/-- os.path.basename: the last path component. -/
def baseName (path : String) : String :=
  (path.splitOn "/").getLastD ""

/-- get_latest_snapshot_path (src/src/utils.py lines 12-24), modelled over
the folder's directory listing: entries are the names of the children the
glob("snapshot=*") pattern is matched against. -/
def get_latest_snapshot_path (folder : String) (entries : List String) :
    Except String String :=
  if (baseName folder).startsWith "snapshot=" then .ok folder
  else
    match (entries.filter (fun e => e.startsWith "snapshot=")).mergeSort
        (fun a b => decide (b ≤ a)) with
    | [] => .error ("No snapshot directories found in " ++ folder)
    | top :: _ => .ok (folder ++ "/" ++ top)

/-- Modelled from the spec: the lexicographically greatest string of a
list, used to state what "most recent snapshot" means. -/
def lexGreatest : List String → Option String
  | [] => none
  | x :: xs =>
    match lexGreatest xs with
    | none => some x
    | some m => some (max x m)

/-! ### Index build control flow (create_whoosh_index,
src/src/index_catalog.py lines 181-267) -/

/-- A fetched row: none models a row whose processing raises (malformed
JSON or model validation failure); some carries the parsed product and the
two pre-extracted price columns of the row. -/
def IndexRow := Option (SearchProduct × Option ℚ × Option ℚ)

/-- Per-row processing inside the inner try/except: build the search
document, or skip the row. -/
def processRow (row : IndexRow) : Option DerivedDoc :=
  match row with
  | none => none
  | some (p, rp, ro) => some (extract_derived_fields p rp ro)

/-- Outcome of an index-build run: one commit of the accumulated
documents, or a cancelled (discarded) partial write. -/
inductive IndexOutcome where
  | committed (docs : List DerivedDoc)
  | cancelled
deriving DecidableEq

/-- create_whoosh_index batch loop: each batch fetch may raise (error),
which cancels the writer and discards the partial write; a per-row failure
only skips that row; the writer commits exactly once after the last
batch. -/
def create_whoosh_index :
    List (Except Unit (List IndexRow)) → List DerivedDoc → IndexOutcome
  | [], buffer => .committed buffer
  | .error _ :: _, _ => .cancelled
  | .ok rows :: rest, buffer =>
    create_whoosh_index rest (buffer ++ rows.filterMap processRow)

/-! ### Concrete fixtures -/

/-- An offer at a given price with no seller. -/
def offerAt (p : ℚ) : Offer :=
  { name := none, price := p, priceCurrency := "USD", seller := none }

/-- A product document whose only populated field is offers. -/
def productWithOffers (u : Option OffersUnion) : SearchProduct :=
  { current_price := none, original_price := none, color_info := none
    categories := none, rating := none, image := none, images := none
    fit := none, offers := u, brand := none, brand_name := none }

/-- Spec section 8 fixture: a list-of-Offers wrapper priced 10, 15, 12. -/
def c1WrapperProduct : SearchProduct :=
  productWithOffers (some (.wrapper
    { offers := some [offerAt 10, offerAt 15, offerAt 12], url := none }))

/-- Spec section 8 fixture: an AggregateOffer with lowPrice 5, highPrice
20, offerCount 7 (no embedded offers list, no seller). -/
def c1AggregateProduct : SearchProduct :=
  productWithOffers (some (.aggregate
    { offerCount := some 7, highPrice := some 20, lowPrice := some 5
      priceCurrency := "USD", seller := none, offers := none }))

/-- Spec section 8 fixture: a single Offer priced 9.99. -/
def c1SingleProduct : SearchProduct :=
  productWithOffers (some (.single (offerAt (999 / 100))))

/-- A previously persisted row for product group g1. -/
def c2Old : DBRow := { key := some "g1", record := "old-record" }

/-- An incoming row for the same product group g1. -/
def c2New : DBRow := { key := some "g1", record := "new-record" }

/-! ### Order lemmas for the loader's ORDER BY -/

theorem optStrLe_total (x y : Option String) : optStrLe x y || optStrLe y x := by
  match x, y with
  | none, _ => simp [optStrLe]
  | some a, none => simp [optStrLe]
  | some a, some b =>
    simp only [optStrLe, Bool.or_eq_true, decide_eq_true_eq]
    exact le_total a b

theorem optStrLe_trans {x y z : Option String}
    (h1 : optStrLe x y) (h2 : optStrLe y z) : optStrLe x z := by
  match x, y, z with
  | none, _, _ => simp [optStrLe]
  | some a, none, _ => simp [optStrLe] at h1
  | some a, some b, none => simp [optStrLe] at h2
  | some a, some b, some c =>
    simp only [optStrLe, decide_eq_true_eq] at h1 h2 ⊢
    exact le_trans h1 h2

theorem optStrLe_antisymm {x y : Option String}
    (h1 : optStrLe x y) (h2 : optStrLe y x) : x = y := by
  match x, y with
  | none, none => rfl
  | none, some b => simp [optStrLe] at h2
  | some a, none => simp [optStrLe] at h1
  | some a, some b =>
    simp only [optStrLe, decide_eq_true_eq] at h1 h2
    exact congrArg some (le_antisymm h1 h2)

theorem rowLe_refl (a : DBRow) : rowLe a a := by
  simp [rowLe]

theorem rowLe_trans {a b c : DBRow} (h1 : rowLe a b) (h2 : rowLe b c) :
    rowLe a c := by
  unfold rowLe at h1 h2 ⊢
  by_cases hab : a.key = b.key <;> by_cases hbc : b.key = c.key
  · rw [if_pos hab] at h1
    rw [if_pos hbc] at h2
    rw [if_pos (hab.trans hbc)]
    simp only [decide_eq_true_eq] at h1 h2 ⊢
    exact le_trans h1 h2
  · rw [if_neg (fun h => hbc (hab ▸ h))]
    rw [if_neg hbc] at h2
    rw [hab]
    exact h2
  · rw [if_neg (fun h => hab (hbc ▸ h))]
    rw [if_neg hab] at h1
    rw [← hbc]
    exact h1
  · rw [if_neg hab] at h1
    rw [if_neg hbc] at h2
    by_cases hac : a.key = c.key
    · exact absurd (optStrLe_antisymm h1 (hac ▸ h2)) hab
    · rw [if_neg hac]
      exact optStrLe_trans h1 h2

theorem rowLe_total (a b : DBRow) : rowLe a b || rowLe b a := by
  unfold rowLe
  by_cases hab : a.key = b.key
  · rw [if_pos hab, if_pos hab.symm]
    simp only [Bool.or_eq_true, decide_eq_true_eq]
    exact le_total a.record b.record
  · rw [if_neg hab, if_neg (fun h => hab h.symm)]
    exact optStrLe_total a.key b.key

theorem rowLe_antisymm {a b : DBRow} (h1 : rowLe a b) (h2 : rowLe b a) :
    a = b := by
  unfold rowLe at h1 h2
  by_cases hab : a.key = b.key
  · rw [if_pos hab] at h1
    rw [if_pos hab.symm] at h2
    simp only [decide_eq_true_eq] at h1 h2
    cases a
    cases b
    simp only [DBRow.mk.injEq]
    exact ⟨hab, le_antisymm h1 h2⟩
  · rw [if_neg hab] at h1
    rw [if_neg (fun h => hab h.symm)] at h2
    exact absurd (optStrLe_antisymm h1 h2) hab

/-- rowLe transitivity in the shape sorted_mergeSort expects. -/
theorem rowLe_transAll : ∀ (a b c : DBRow), rowLe a b → rowLe b c → rowLe a c :=
  fun _ _ _ h1 h2 => rowLe_trans h1 h2

/-- Two sorted lists that are permutations of one another are equal. -/
theorem sorted_perm_eq : ∀ {l₁ l₂ : List DBRow}, l₁.Perm l₂ →
    l₁.Pairwise (fun a b => rowLe a b = true) →
    l₂.Pairwise (fun a b => rowLe a b = true) → l₁ = l₂ := by
  intro l₁
  induction l₁ with
  | nil =>
    intro l₂ hp _ _
    exact (List.Perm.nil_eq hp).symm ▸ rfl
  | cons x t ih =>
    intro l₂ hp h1 h2
    match l₂ with
    | [] => exact absurd hp.symm (by simp)
    | y :: t₂ =>
      have hxmem : x ∈ y :: t₂ := hp.mem_iff.mp (List.mem_cons_self x t)
      have hymem : y ∈ x :: t := hp.symm.mem_iff.mp (List.mem_cons_self y t₂)
      have hpc1 := List.pairwise_cons.mp h1
      have hpc2 := List.pairwise_cons.mp h2
      have hxy : x = y := by
        rcases List.mem_cons.mp hxmem with h | hxt
        · exact h
        · rcases List.mem_cons.mp hymem with h | hyt
          · exact h.symm
          · exact rowLe_antisymm (hpc1.1 y hyt) (hpc2.1 x hxt)
      subst hxy
      have := ih (hp.cons_inv) hpc1.2 hpc2.2
      rw [this]

/-! ### DISTINCT ON lemmas -/

theorem distinctOnKey_nil : distinctOnKey [] = [] := by
  simp [distinctOnKey]

theorem distinctOnKey_cons (r : DBRow) (rest : List DBRow) :
    distinctOnKey (r :: rest)
      = r :: distinctOnKey (rest.filter (fun x => x.key ≠ r.key)) := by
  simp [distinctOnKey]

theorem distinctOnKey_subset :
    ∀ (l : List DBRow), ∀ r ∈ distinctOnKey l, r ∈ l := by
  intro l
  induction l using distinctOnKey.induct with
  | case1 =>
    simp [distinctOnKey_nil]
  | case2 x rest ih =>
    intro s hs
    rw [distinctOnKey_cons] at hs
    rcases List.mem_cons.mp hs with h | h
    · exact h ▸ List.mem_cons_self x rest
    · exact List.mem_cons_of_mem x (List.mem_of_mem_filter (ih s h))

theorem distinctOnKey_keys_nodup :
    ∀ (l : List DBRow), ((distinctOnKey l).map (fun r => r.key)).Nodup := by
  intro l
  induction l using distinctOnKey.induct with
  | case1 =>
    simp [distinctOnKey_nil]
  | case2 x rest ih =>
    rw [distinctOnKey_cons, List.map_cons, List.nodup_cons]
    refine ⟨?_, ih⟩
    intro hmem
    rcases List.mem_map.mp hmem with ⟨s, hs, hkey⟩
    have hsf := distinctOnKey_subset _ s hs
    have := List.of_mem_filter hsf
    simp only [decide_eq_true_eq] at this
    exact this hkey

theorem distinctOnKey_exists_key :
    ∀ (l : List DBRow), ∀ s ∈ l, ∃ t ∈ distinctOnKey l, t.key = s.key := by
  intro l
  induction l using distinctOnKey.induct with
  | case1 =>
    simp
  | case2 x rest ih =>
    intro s hs
    rw [distinctOnKey_cons]
    rcases List.mem_cons.mp hs with h | h
    · exact ⟨x, List.mem_cons_self _ _, (h ▸ rfl)⟩
    · by_cases hk : s.key = x.key
      · exact ⟨x, List.mem_cons_self _ _, hk.symm⟩
      · have hsf : s ∈ rest.filter (fun y => y.key ≠ x.key) :=
          List.mem_filter.mpr ⟨h, by simpa using hk⟩
        rcases ih s hsf with ⟨t, ht, hkey⟩
        exact ⟨t, List.mem_cons_of_mem _ ht, hkey⟩

theorem distinctOnKey_min :
    ∀ (l : List DBRow), l.Pairwise (fun a b => rowLe a b = true) →
      ∀ r ∈ distinctOnKey l, ∀ s ∈ l, s.key = r.key → rowLe r s = true := by
  intro l
  induction l using distinctOnKey.induct with
  | case1 =>
    simp
  | case2 x rest ih =>
    intro hsorted r hr s hs hkey
    have hpc := List.pairwise_cons.mp hsorted
    rw [distinctOnKey_cons] at hr
    rcases List.mem_cons.mp hr with h | h
    · subst h
      rcases List.mem_cons.mp hs with h2 | h2
      · exact h2 ▸ rowLe_refl r
      · exact hpc.1 s h2
    · have hrf := distinctOnKey_subset _ r h
      have hrne := List.of_mem_filter hrf
      simp only [decide_eq_true_eq] at hrne
      rcases List.mem_cons.mp hs with h2 | h2
      · have : r.key = x.key := by rw [← hkey, h2]
        exact absurd this hrne
      · have hsf : s ∈ rest.filter (fun y => y.key ≠ x.key) :=
          List.mem_filter.mpr ⟨h2, by simpa using hkey ▸ hrne⟩
        exact ih (hpc.2.sublist (List.filter_sublist rest)) r h s hsf hkey

theorem distinctOnKey_eq_self :
    ∀ (l : List DBRow), ((l.map (fun r => r.key)).Nodup) → distinctOnKey l = l := by
  intro l
  induction l using distinctOnKey.induct with
  | case1 =>
    intro _
    exact distinctOnKey_nil
  | case2 x rest ih =>
    intro hnd
    rw [List.map_cons, List.nodup_cons] at hnd
    have hfeq : rest.filter (fun y => y.key ≠ x.key) = rest := by
      rw [List.filter_eq_self]
      intro s hs
      simp only [decide_eq_true_eq]
      intro hkey
      exact hnd.1 (List.mem_map.mpr ⟨s, hs, hkey⟩)
    rw [hfeq] at ih
    rw [distinctOnKey_cons, hfeq, ih hnd.2]

/-! ### First-file table lemmas -/

theorem firstFileTable_eq_of_perm {f g : List DBRow} (h : f.Perm g) :
    firstFileTable f = firstFileTable g := by
  unfold firstFileTable
  have hk : (keyedRows f).Perm (keyedRows g) := h.filter _
  have hperm : ((keyedRows f).mergeSort rowLe).Perm ((keyedRows g).mergeSort rowLe) :=
    ((List.mergeSort_perm _ rowLe).trans hk).trans (List.mergeSort_perm _ rowLe).symm
  have hs1 := List.sorted_mergeSort rowLe_transAll rowLe_total (keyedRows f)
  have hs2 := List.sorted_mergeSort rowLe_transAll rowLe_total (keyedRows g)
  rw [sorted_perm_eq hperm hs1 hs2]

theorem firstFileTable_subset (f : List DBRow) :
    ∀ r ∈ firstFileTable f, r ∈ keyedRows f := by
  intro r hr
  exact List.mem_mergeSort.mp (distinctOnKey_subset _ r hr)

theorem firstFileTable_exists_key (f : List DBRow) :
    ∀ s ∈ keyedRows f, ∃ t ∈ firstFileTable f, t.key = s.key := by
  intro s hs
  exact distinctOnKey_exists_key _ s (List.mem_mergeSort.mpr hs)

theorem firstFileTable_keys_nodup (f : List DBRow) :
    ((firstFileTable f).map (fun r => r.key)).Nodup :=
  distinctOnKey_keys_nodup _

theorem firstFileTable_min (f : List DBRow) :
    ∀ r ∈ firstFileTable f, ∀ s ∈ keyedRows f, s.key = r.key →
      r.record ≤ s.record := by
  intro r hr s hs hkey
  have hsorted := List.sorted_mergeSort rowLe_transAll rowLe_total (keyedRows f)
  have := distinctOnKey_min _ hsorted r hr s (List.mem_mergeSort.mpr hs) hkey
  rw [rowLe, if_pos hkey.symm] at this
  exact of_decide_eq_true this

/-! ### Lexicographic maximum lemmas -/

theorem lexGreatest_eq_none : ∀ (l : List String), lexGreatest l = none ↔ l = [] := by
  intro l
  match l with
  | [] => simp [lexGreatest]
  | x :: xs =>
    simp only [lexGreatest]
    cases lexGreatest xs <;> simp

theorem lexGreatest_mem_ub :
    ∀ (l : List String) (m : String), lexGreatest l = some m →
      m ∈ l ∧ ∀ x ∈ l, x ≤ m := by
  intro l
  induction l with
  | nil =>
    intro m h
    simp [lexGreatest] at h
  | cons x xs ih =>
    intro m h
    rw [lexGreatest] at h
    cases hxs : lexGreatest xs with
    | none =>
      rw [hxs] at h
      have hx : x = m := by simpa using h
      have hempty : xs = [] := (lexGreatest_eq_none xs).mp hxs
      subst hx
      subst hempty
      simp
    | some n =>
      rw [hxs] at h
      have hm : max x n = m := by simpa using h
      obtain ⟨hnmem, hnub⟩ := ih n hxs
      constructor
      · rcases max_choice x n with hc | hc
        · rw [← hm, hc]
          exact List.mem_cons_self _ _
        · rw [← hm, hc]
          exact List.mem_cons_of_mem _ hnmem
      · intro y hy
        rcases List.mem_cons.mp hy with hyx | hyxs
        · rw [hyx, ← hm]
          exact le_max_left x n
        · exact le_trans (hnub y hyxs) (hm ▸ le_max_right x n)

/-- Transitivity of the descending string comparison used by the
resolver's reverse sort. -/
theorem descStrLe_trans : ∀ (a b c : String),
    decide (b ≤ a) = true → decide (c ≤ b) = true → decide (c ≤ a) = true := by
  intro a b c h1 h2
  simp only [decide_eq_true_eq] at h1 h2 ⊢
  exact le_trans h2 h1

/-- Totality of the descending string comparison. -/
theorem descStrLe_total : ∀ (a b : String),
    (decide (b ≤ a) || decide (a ≤ b)) = true := by
  intro a b
  simp only [Bool.or_eq_true, decide_eq_true_eq]
  exact le_total b a

/-! ### Claim theorems -/

/-- C8: for a directory whose base name starts with snapshot= the resolver
returns the directory itself; otherwise it returns the lexicographically
greatest snapshot=* child when one exists, and errors (no default) when
none does. -/
theorem C8_snapshot_resolver (folder : String) (entries : List String) :
    get_latest_snapshot_path folder entries =
      (if (baseName folder).startsWith "snapshot=" then .ok folder
       else
         match lexGreatest (entries.filter (fun e => e.startsWith "snapshot=")) with
         | some m => .ok (folder ++ "/" ++ m)
         | none => .error ("No snapshot directories found in " ++ folder)) := by
  unfold get_latest_snapshot_path
  by_cases hb : (baseName folder).startsWith "snapshot="
  · rw [if_pos hb, if_pos hb]
  · rw [if_neg hb, if_neg hb]
    cases hsort : (entries.filter (fun e => e.startsWith "snapshot=")).mergeSort
        (fun a b => decide (b ≤ a)) with
    | nil =>
      have hperm := List.mergeSort_perm
        (entries.filter (fun e => e.startsWith "snapshot=")) (fun a b => decide (b ≤ a))
      rw [hsort] at hperm
      have hnil : entries.filter (fun e => e.startsWith "snapshot=") = [] :=
        hperm.symm.eq_nil
      rw [hnil]
      simp [lexGreatest]
    | cons top rest =>
      have hperm := List.mergeSort_perm
        (entries.filter (fun e => e.startsWith "snapshot=")) (fun a b => decide (b ≤ a))
      rw [hsort] at hperm
      have hsorted := List.sorted_mergeSort descStrLe_trans descStrLe_total
        (entries.filter (fun e => e.startsWith "snapshot="))
      rw [hsort] at hsorted
      have hne : entries.filter (fun e => e.startsWith "snapshot=") ≠ [] := by
        intro h
        rw [h] at hperm
        exact absurd hperm.eq_nil (by simp)
      cases hlg : lexGreatest (entries.filter (fun e => e.startsWith "snapshot=")) with
      | none =>
        exact absurd ((lexGreatest_eq_none _).mp hlg) hne
      | some m =>
        obtain ⟨hmem, hub⟩ := lexGreatest_mem_ub _ m hlg
        have htopmem : top ∈ entries.filter (fun e => e.startsWith "snapshot=") :=
          hperm.mem_iff.mp (List.mem_cons_self _ _)
        have htopub : ∀ x ∈ entries.filter (fun e => e.startsWith "snapshot="), x ≤ top := by
          intro x hx
          rcases List.mem_cons.mp (hperm.mem_iff.mpr hx) with hxt | hxr
          · exact le_of_eq hxt
          · have := (List.pairwise_cons.mp hsorted).1 x hxr
            simpa using this
        have : m = top := le_antisymm (htopub m hmem) (hub top htopmem)
        rw [this]

/-- C9: two ProductGroups are equal iff both have a non-null url and the
urls are identical; productGroupID plays no role in equality; hashing a
ProductGroup whose url is null errors instead of returning a hash. -/
theorem C9_productgroup_identity (a b p : ProductGroup) (i j : Option String) :
    (ProductGroup.pyEq a b = true ↔ ∃ u, a.url = some u ∧ b.url = some u)
    ∧ ProductGroup.pyEq { a with productGroupID := i } { b with productGroupID := j }
        = ProductGroup.pyEq a b
    ∧ (ProductGroup.pyHash p = .error "Cannot hash ProductGroup without url"
        ↔ p.url = none) := by
  refine ⟨?_, ?_, ?_⟩
  · unfold ProductGroup.pyEq
    cases a.url with
    | none => simp
    | some u =>
      cases b.url with
      | none => simp
      | some v =>
        simp only [beq_iff_eq, Option.some.injEq]
        constructor
        · intro h
          exact ⟨u, rfl, by rw [h]⟩
        · intro ⟨w, hw1, hw2⟩
          rw [hw1, hw2]
  · rfl
  · unfold ProductGroup.pyHash
    cases p.url <;> simp

/-- C10: a Product constructed from a source record that does not set the
availability field gets IN_STOCK, never AVAILABILITY_UNSPECIFIED; the
declared default itself is IN_STOCK. -/
theorem C10_availability_default (r : ProductSource) :
    (Product.ofRecord { r with availability := none }).availability
        = some AvailabilityEnum.IN_STOCK
    ∧ (Product.ofRecord { r with availability := none }).availability
        ≠ some AvailabilityEnum.AVAILABILITY_UNSPECIFIED
    ∧ availabilityDefault = some AvailabilityEnum.IN_STOCK := by
  refine ⟨rfl, ?_, rfl⟩
  intro h
  simp [Product.ofRecord, availabilityDefault] at h

/-- C7: during index building a per-row failure only skips that row (the
rest of the batch and the run proceed, and a completed run commits the
successfully processed documents exactly once at the end); a batch-level
error mid-run cancels the partial write instead of committing it. -/
theorem C7_index_error_handling (bs : List (List IndexRow))
    (buffer : List DerivedDoc) (rest : List (Except Unit (List IndexRow))) :
    create_whoosh_index (bs.map .ok) buffer
      = .committed (buffer ++ (bs.flatMap id).filterMap processRow)
    ∧ create_whoosh_index (bs.map .ok ++ .error () :: rest) buffer
      = .cancelled := by
  induction bs generalizing buffer with
  | nil =>
    simp [create_whoosh_index]
  | cons rows bs ih =>
    constructor
    · show create_whoosh_index (.ok rows :: bs.map .ok) buffer = _
      rw [create_whoosh_index]
      rw [(ih (buffer ++ rows.filterMap processRow)).1]
      simp [List.append_assoc]
    · show create_whoosh_index (.ok rows :: (bs.map .ok ++ .error () :: rest)) buffer = _
      rw [create_whoosh_index]
      exact (ih (buffer ++ rows.filterMap processRow)).2

/-- C1 (counterexample): on the spec's own fixtures the indexer does not
derive the claimed scalars: with three offers priced 10, 15, 12 it leaves
low_price and high_price unset (they are never computed from the offers);
for an AggregateOffer with offerCount 7 it reports offer_count 0, not 7;
for a single Offer without a seller it reports offer_count 0, not 1. -/
theorem C1_counterexample :
    (extract_derived_fields c1WrapperProduct none none).offer_count = 3
    ∧ (extract_derived_fields c1WrapperProduct none none).low_price ≠ some 10
    ∧ (extract_derived_fields c1WrapperProduct none none).high_price ≠ some 15
    ∧ (extract_derived_fields c1AggregateProduct none none).offer_count ≠ 7
    ∧ (extract_derived_fields c1SingleProduct none none).offer_count ≠ 1 := by
  refine ⟨rfl, ?_, ?_, ?_, ?_⟩ <;> decide

/-- C1 (amended): low_price and high_price never come from the offers
field: they are unchanged under any change of offers and equal the
truthiness-coalescing of the pre-extracted price and original price (low =
price if truthy else original price, high = original price if truthy else
price, each being the row value with the product field as fallback).
offer_count is the length of the exposed offers list when that list is
non-empty; for a single Offer it is 1 exactly when the offer has a
seller; for an AggregateOffer without an embedded list the offerCount
field is ignored and the count is 1 exactly when a seller is present. -/
theorem C1_amended (p : SearchProduct) (rp ro : Option ℚ) (u : Option OffersUnion)
    (l : List Offer) (w : Offers) (o : Offer) (a : AggregateOffer) :
    ((extract_derived_fields { p with offers := u } rp ro).low_price
        = (extract_derived_fields p rp ro).low_price
      ∧ (extract_derived_fields { p with offers := u } rp ro).high_price
        = (extract_derived_fields p rp ro).high_price)
    ∧ (extract_derived_fields p rp ro).low_price
        = pyOrQ (coalesce rp p.current_price) (coalesce ro p.original_price)
    ∧ (extract_derived_fields p rp ro).high_price
        = pyOrQ (coalesce ro p.original_price) (coalesce rp p.current_price)
    ∧ (extract_derived_fields
          { p with offers := some (.wrapper { w with offers := some l }) } rp ro).offer_count
        = (if l.isEmpty then 0 else l.length)
    ∧ (extract_derived_fields { p with offers := some (.single o) } rp ro).offer_count
        = (if o.seller.isSome then 1 else 0)
    ∧ (extract_derived_fields
          { p with offers := some (.aggregate { a with offers := none }) } rp ro).offer_count
        = (if a.seller.isSome then 1 else 0) := by
  refine ⟨⟨rfl, rfl⟩, rfl, rfl, ?_, ?_, ?_⟩
  · cases l with
    | nil => rfl
    | cons x xs => rfl
  · cases hs : o.seller with
    | none =>
      simp [extract_derived_fields, offersDerived, OffersUnion.offersAttr,
        OffersUnion.sellerAttr, offersSellerBranch, hs]
    | some s =>
      simp [extract_derived_fields, offersDerived, OffersUnion.offersAttr,
        OffersUnion.sellerAttr, offersSellerBranch, hs]
  · cases hs : a.seller with
    | none =>
      simp [extract_derived_fields, offersDerived, OffersUnion.offersAttr,
        OffersUnion.sellerAttr, offersSellerBranch, hs]
    | some s =>
      simp [extract_derived_fields, offersDerived, OffersUnion.offersAttr,
        OffersUnion.sellerAttr, offersSellerBranch, hs]

/-- C2 (counterexample): a load run against a catalog already holding a
row for group g1 does not leave that row's stored record unchanged: the
run drops and recreates the relation, so the persisted record for g1
becomes the new file's (different) record. -/
theorem C2_counterexample :
    load_run_duckdb [c2Old] [some [c2New]]
      = .ok { table := [c2New], total := 1, dups := 0 }
    ∧ c2Old ≠ c2New := by
  constructor
  · have h1 : firstFileTable [c2New] = [c2New] := by
      unfold firstFileTable
      rw [show keyedRows [c2New] = [c2New] from rfl, List.mergeSort_singleton,
        distinctOnKey_cons]
      simp [distinctOnKey_nil]
    simp only [load_run_duckdb, load_to_duckdb, List.foldl_nil, h1]
    rfl
  · decide

/-- Per-file step of load_to_duckdb: the persisted table only grows by a
suffix whose keys were not present, and stays key-duplicate-free. -/
theorem duckStep_table (st : LoadState) (file : Option (List DBRow))
    (h : (st.table.map (fun r => r.key)).Nodup) :
    ∃ s1, (duckStep st file).table = st.table ++ s1
      ∧ (∀ r ∈ s1, ∀ m ∈ st.table, m.key ≠ r.key)
      ∧ (((duckStep st file).table.map (fun r => r.key)).Nodup) := by
  cases file with
  | none =>
    exact ⟨[], by simp [duckStep], by simp, by simpa [duckStep] using h⟩
  | some f =>
    simp only [duckStep]
    by_cases hd : hasDupKeys
        ((keyedRows f).filter (fun r => !(st.table.any (fun m => m.key == r.key))))
    · rw [if_pos hd]
      exact ⟨[], by simp, by simp, by simpa using h⟩
    · rw [if_neg hd]
      refine ⟨(keyedRows f).filter (fun r => !(st.table.any (fun m => m.key == r.key))),
        rfl, ?_, ?_⟩
      · intro r hr m hm hkey
        have hpred := (List.mem_filter.mp hr).2
        have hany : st.table.any (fun m2 => m2.key == r.key) = true :=
          List.any_eq_true.mpr ⟨m, hm, by rw [hkey]; exact beq_self_eq_true _⟩
        rw [hany] at hpred
        simp at hpred
      · rw [List.map_append]
        refine List.Nodup.append h ?_ ?_
        · unfold hasDupKeys at hd
          simpa using hd
        · intro k hk1 hk2
          obtain ⟨m, hm, hmk⟩ := List.mem_map.mp hk1
          obtain ⟨r, hr, hrk⟩ := List.mem_map.mp hk2
          have hpred := (List.mem_filter.mp hr).2
          have hany : st.table.any (fun m2 => m2.key == r.key) = true :=
            List.any_eq_true.mpr ⟨m, hm, by rw [hmk, hrk]; exact beq_self_eq_true _⟩
          rw [hany] at hpred
          simp at hpred

/-- Folded form of duckStep_table over a whole batch tail. -/
theorem duckFold_table (files : List (Option (List DBRow))) (st : LoadState)
    (h : (st.table.map (fun r => r.key)).Nodup) :
    ∃ suffix, (files.foldl duckStep st).table = st.table ++ suffix
      ∧ (∀ r ∈ suffix, ∀ m ∈ st.table, m.key ≠ r.key)
      ∧ (((files.foldl duckStep st).table.map (fun r => r.key)).Nodup) := by
  induction files generalizing st with
  | nil =>
    exact ⟨[], by simp, by simp, by simpa using h⟩
  | cons file rest ih =>
    obtain ⟨s1, he1, hk1, hn1⟩ := duckStep_table st file h
    obtain ⟨s2, he2, hk2, hn2⟩ := ih (duckStep st file) hn1
    refine ⟨s1 ++ s2, ?_, ?_, ?_⟩
    · rw [List.foldl_cons, he2, he1, List.append_assoc]
    · intro r hr m hm
      rcases List.mem_append.mp hr with h1 | h2
      · exact hk1 r h1 m hm
      · exact hk2 r h2 m (by rw [he1]; exact List.mem_append_left _ hm)
    · rw [List.foldl_cons] at *
      exact hn2

/-- C2 (amended): within one load run the claim holds — later files of the
batch extend the persisted table without modifying existing rows and never
insert a key that is already present, keeping the persisted keys
duplicate-free.  Across runs it fails: the run drops and recreates the
relation (see the counterexample). -/
theorem C2_amended (st : LoadState) (files : List (Option (List DBRow)))
    (h : (st.table.map (fun r => r.key)).Nodup) :
    (∃ suffix, (files.foldl duckStep st).table = st.table ++ suffix
        ∧ ∀ r ∈ suffix, ∀ m ∈ st.table, m.key ≠ r.key)
    ∧ (((files.foldl duckStep st).table.map (fun r => r.key)).Nodup) := by
  obtain ⟨suffix, he, hk, hn⟩ := duckFold_table files st h
  exact ⟨⟨suffix, he, hk⟩, hn⟩

/-- C2 witness: the within-run no-overwrite property at a concrete state
and batch. -/
theorem C2_amended_witness :
    (∃ suffix,
        (([some [c2New]]).foldl duckStep { table := [c2Old], total := 1, dups := 0 }).table
          = [c2Old] ++ suffix
        ∧ ∀ r ∈ suffix, ∀ m ∈ [c2Old], m.key ≠ r.key)
    ∧ ((([some [c2New]]).foldl duckStep
          { table := [c2Old], total := 1, dups := 0 }).table.map (fun r => r.key)).Nodup :=
  C2_amended { table := [c2Old], total := 1, dups := 0 } [some [c2New]] (by decide)

/-- A list with duplicate-free keys holds at most one row per key. -/
theorem length_filter_key_le_one (l : List DBRow)
    (hnd : (l.map (fun r => r.key)).Nodup) (c : Option String) :
    (l.filter (fun r => r.key == c)).length ≤ 1 := by
  induction l with
  | nil => simp
  | cons x t ih =>
    rw [List.map_cons, List.nodup_cons] at hnd
    rw [List.filter_cons]
    by_cases hx : (x.key == c) = true
    · rw [if_pos hx]
      have ht : t.filter (fun r => r.key == c) = [] := by
        rw [List.filter_eq_nil_iff]
        intro r hr hc
        apply hnd.1
        refine List.mem_map.mpr ⟨r, hr, ?_⟩
        rw [eq_of_beq hc, eq_of_beq hx]
      rw [ht]
      simp
    · rw [if_neg hx]
      exact ih hnd.2

/-- C3 (counterexample): the SQLite loader loads the first file wholesale:
both rows sharing productGroupID g are persisted, not exactly one. -/
theorem C3_counterexample :
    load_to_sqlite
        [some [{ key := some "g", record := "B" }, { key := some "g", record := "A" }]]
      = .ok { table := [{ key := some "g", record := "B" },
                        { key := some "g", record := "A" }]
              gids := ["g"], total := 2, dups := 0 } := by
  decide

/-- C3 (amended): within-file dedup happens only for the first file of the
DuckDB batch, where the claim holds: at most one row per productGroupID is
kept (and at least one whenever the key occurs), the kept row has a
serialization that is lexicographically least among the rows sharing its
key, and the kept table does not depend on the original row order.  Later
DuckDB files and the whole SQLite path perform no within-file dedup (see
the counterexample). -/
theorem C3_amended (f g : List DBRow) (hperm : f.Perm g) (k : String) :
    firstFileTable f = firstFileTable g
    ∧ ((firstFileTable f).filter (fun r => r.key == some k)).length ≤ 1
    ∧ (∀ r ∈ firstFileTable f, ∀ s ∈ f, s.key = r.key → r.record ≤ s.record)
    ∧ (∀ s ∈ f, s.key = some k → ∃ t ∈ firstFileTable f, t.key = some k) := by
  refine ⟨firstFileTable_eq_of_perm hperm, ?_, ?_, ?_⟩
  · exact length_filter_key_le_one _ (firstFileTable_keys_nodup f) _
  · intro r hr s hs hkey
    have hrk : r.key.isSome := by
      have := List.mem_filter.mp (firstFileTable_subset f r hr)
      simpa [keyedRows] using this.2
    have hsk : s ∈ keyedRows f :=
      List.mem_filter.mpr ⟨hs, by rw [hkey]; simpa using hrk⟩
    exact firstFileTable_min f r hr s hsk hkey
  · intro s hs hk
    have hsk : s ∈ keyedRows f :=
      List.mem_filter.mpr ⟨hs, by simp [hk]⟩
    obtain ⟨t, ht, hkey⟩ := firstFileTable_exists_key f s hsk
    exact ⟨t, ht, by rw [hkey, hk]⟩

/-- C3 witness: the spec's two-row tie-break fixture, in both orders. -/
theorem C3_amended_witness :
    firstFileTable [{ key := some "g", record := "B" }, { key := some "g", record := "A" }]
      = firstFileTable [{ key := some "g", record := "A" }, { key := some "g", record := "B" }] :=
  (C3_amended _ _ (List.Perm.swap _ _ _) "g").1

/-- A filter and its negation partition a list's length. -/
theorem length_filter_partition (p : DBRow → Bool) (l : List DBRow) :
    (l.filter p).length + (l.filter (fun a => !p a)).length = l.length := by
  induction l with
  | nil => rfl
  | cons x t ih =>
    by_cases h : p x = true <;>
      simp only [List.filter_cons, h, if_true, if_false, Bool.not_true,
        Bool.not_false, List.length_cons, Bool.true_eq_false, Bool.false_eq_true,
        if_neg, reduceIte] <;>
      omega

/-- Keyed rows plus keyless rows add up to the batch size. -/
theorem keyed_partition (fs : List (List DBRow)) :
    (fs.flatMap keyedRows).length
        + ((fs.flatMap (fun f => f)).filter (fun r => !r.key.isSome)).length
      = (fs.flatMap (fun f => f)).length := by
  induction fs with
  | nil => rfl
  | cons f rest ih =>
    simp only [List.flatMap_cons, List.filter_append, List.length_append]
    have hpart := length_filter_partition (fun r => r.key.isSome) f
    have hkf : (keyedRows f).length = (f.filter (fun r => r.key.isSome)).length := rfl
    omega

/-- With no duplicated keys in the tail of the batch (relative to the
accumulated table), every later file of a DuckDB run inserts all of its
keyed rows. -/
theorem duckFold_length (fs : List (List DBRow)) (st : LoadState)
    (h : ((st.table ++ fs.flatMap keyedRows).map (fun r => r.key)).Nodup) :
    ((fs.map some).foldl duckStep st).table.length
      = st.table.length + (fs.flatMap keyedRows).length := by
  induction fs generalizing st with
  | nil => simp
  | cons f rest ih =>
    rw [List.flatMap_cons] at h
    rw [List.map_append, List.nodup_append] at h
    obtain ⟨hA, hBC, hdisj⟩ := h
    have hBCn := hBC
    rw [List.map_append, List.nodup_append] at hBCn
    obtain ⟨hB, hC, hBCd⟩ := hBCn
    have hfilter : (keyedRows f).filter
        (fun r => !(st.table.any (fun m => m.key == r.key))) = keyedRows f := by
      rw [List.filter_eq_self]
      intro r hr
      have hnotin : ¬ st.table.any (fun m => m.key == r.key) = true := by
        intro hany
        obtain ⟨m, hm, hbeq⟩ := List.any_eq_true.mp hany
        apply hdisj (List.mem_map.mpr ⟨m, hm, rfl⟩)
        rw [List.map_append]
        exact List.mem_append_left _
          (List.mem_map.mpr ⟨r, hr, (eq_of_beq hbeq).symm⟩)
      simp [hnotin]
    have hnodup : ¬ hasDupKeys (keyedRows f) = true := by
      unfold hasDupKeys
      simpa using hB
    have hstep : duckStep st (some f)
        = { table := st.table ++ keyedRows f
            total := st.total + (keyedRows f).length
            dups := st.dups + (f.length - (keyedRows f).length) } := by
      simp only [duckStep, hfilter]
      rw [if_neg hnodup]
    have hst2 : (((st.table ++ keyedRows f) ++ rest.flatMap keyedRows).map
        (fun r => r.key)).Nodup := by
      rw [List.append_assoc, List.map_append, List.nodup_append]
      exact ⟨hA, hBC, hdisj⟩
    have hih := ih ⟨st.table ++ keyedRows f, st.total + (keyedRows f).length,
      st.dups + (f.length - (keyedRows f).length)⟩ hst2
    rw [List.map_cons, List.foldl_cons, hstep, hih]
    dsimp only
    rw [List.length_append, List.flatMap_cons, List.length_append]
    omega

/-- C4 (counterexample): the SQLite loader does not drop a row lacking
productGroupID: a 1-row batch whose row has no key persists 1 row, not
N - M = 0, so the keyless row was loaded. -/
theorem C4_counterexample :
    load_to_sqlite [some [{ key := none, record := "x" }]]
      = .ok { table := [{ key := none, record := "x" }]
              gids := [], total := 1, dups := 0 } := by
  decide

/-- C4 (amended): the claim holds for the DuckDB loader: in a batch with
no duplicated productGroupIDs and M keyless rows out of N, the run
succeeds and persists exactly N - M rows (keyless rows are dropped without
an error).  The SQLite loader loads keyless rows instead (see the
counterexample). -/
theorem C4_amended (fs : List (List DBRow))
    (h : ((fs.flatMap keyedRows).map (fun r => r.key)).Nodup) :
    ∃ st, load_to_duckdb (fs.map some) = .ok st
      ∧ st.table.length
          + ((fs.flatMap (fun f => f)).filter (fun r => !r.key.isSome)).length
        = (fs.flatMap (fun f => f)).length := by
  cases fs with
  | nil =>
    exact ⟨{ table := [], total := 0, dups := 0 }, rfl, rfl⟩
  | cons f rest =>
    rw [List.flatMap_cons, List.map_append, List.nodup_append] at h
    obtain ⟨hB, hC, hBCd⟩ := h
    have hperm : ((keyedRows f).mergeSort rowLe).Perm (keyedRows f) :=
      List.mergeSort_perm _ rowLe
    have hmsnodup : (((keyedRows f).mergeSort rowLe).map (fun r => r.key)).Nodup :=
      ((hperm.map (fun r => r.key)).symm).nodup hB
    have hfft : firstFileTable f = (keyedRows f).mergeSort rowLe :=
      distinctOnKey_eq_self _ hmsnodup
    have hlen : (firstFileTable f).length = (keyedRows f).length := by
      rw [hfft]
      exact hperm.length_eq
    have hkeysperm : ((firstFileTable f).map (fun r => r.key)).Perm
        ((keyedRows f).map (fun r => r.key)) := by
      rw [hfft]
      exact hperm.map _
    have hst : ((firstFileTable f ++ rest.flatMap keyedRows).map
        (fun r => r.key)).Nodup := by
      rw [List.map_append]
      refine ((hkeysperm.append_right _).symm).nodup ?_
      rw [List.nodup_append]
      exact ⟨hB, hC, hBCd⟩
    have hfold := duckFold_length rest
      ⟨firstFileTable f, (firstFileTable f).length,
        f.length - (firstFileTable f).length⟩ hst
    refine ⟨(rest.map some).foldl duckStep
      ⟨firstFileTable f, (firstFileTable f).length,
        f.length - (firstFileTable f).length⟩, rfl, ?_⟩
    rw [hfold]
    dsimp only
    rw [hlen]
    have hkp := keyed_partition (f :: rest)
    simp only [List.flatMap_cons, List.filter_append, List.length_append] at hkp ⊢
    omega

/-- C4 witness: a concrete duplicate-free batch with one keyless row. -/
theorem C4_amended_witness :
    ∃ st, load_to_duckdb
        ([[(⟨some "a", "r1"⟩ : DBRow), ⟨none, "r2"⟩], [⟨some "b", "r3"⟩]].map some)
      = .ok st
      ∧ st.table.length
          + (([[(⟨some "a", "r1"⟩ : DBRow), ⟨none, "r2"⟩],
              [⟨some "b", "r3"⟩]].flatMap (fun f => f)).filter
              (fun r => !r.key.isSome)).length
        = ([[(⟨some "a", "r1"⟩ : DBRow), ⟨none, "r2"⟩],
            [⟨some "b", "r3"⟩]].flatMap (fun f => f)).length :=
  C4_amended [[(⟨some "a", "r1"⟩ : DBRow), ⟨none, "r2"⟩], [⟨some "b", "r3"⟩]]
    (by decide)

/-- C5 (counterexample): loading a file whose single row lacks
productGroupID twice into a fresh SQLite catalog persists the row twice
(2 rows, not the single-load count 1), and the second load's
duplicates-skipped contribution is 0, not the file's row count 1. -/
theorem C5_counterexample :
    load_to_sqlite [some [{ key := none, record := "x" }],
        some [{ key := none, record := "x" }]]
      = .ok { table := [{ key := none, record := "x" },
                        { key := none, record := "x" }]
              gids := [], total := 2, dups := 0 } := by
  decide

/-- C5 (amended): double-load idempotence holds for the DuckDB loader
unconditionally, and for the SQLite loader whenever every row of the file
carries a productGroupID: the second copy of the file inserts no rows, the
table and total are unchanged, and duplicates_skipped grows by exactly the
file's row count. -/
theorem C5_amended (f g : List DBRow) (hg : ∀ r ∈ g, r.key.isSome) :
    (∃ st, load_to_duckdb [some f] = .ok st
      ∧ load_to_duckdb [some f, some f] = .ok { st with dups := st.dups + f.length })
    ∧ (∃ st, load_to_sqlite [some g] = .ok st
      ∧ load_to_sqlite [some g, some g] = .ok { st with dups := st.dups + g.length }) := by
  constructor
  · refine ⟨⟨firstFileTable f, (firstFileTable f).length,
      f.length - (firstFileTable f).length⟩, rfl, ?_⟩
    show Except.ok (duckStep ⟨firstFileTable f, (firstFileTable f).length,
      f.length - (firstFileTable f).length⟩ (some f)) = _
    have hnil : (keyedRows f).filter
        (fun r => !((firstFileTable f).any (fun m => m.key == r.key))) = [] := by
      rw [List.filter_eq_nil_iff]
      intro r hr
      obtain ⟨t, ht, hkey⟩ := firstFileTable_exists_key f r hr
      have hany : (firstFileTable f).any (fun m => m.key == r.key) = true :=
        List.any_eq_true.mpr ⟨t, ht, by rw [hkey]; exact beq_self_eq_true _⟩
      simp [hany]
    simp only [duckStep, hnil]
    rw [if_neg (by decide : ¬ hasDupKeys ([] : List DBRow) = true)]
    simp

  · refine ⟨⟨g, groupIdsOf g, g.length, 0⟩, rfl, ?_⟩
    show Except.ok (sqliteStep ⟨g, groupIdsOf g, g.length, 0⟩ (some g)) = _
    have hmem : ∀ r ∈ g, ∀ k, r.key = some k → k ∈ groupIdsOf g := by
      intro r hr k hk
      unfold groupIdsOf
      rw [List.mem_dedup]
      exact List.mem_filterMap.mpr ⟨r, hr, hk⟩
    have hnil : g.filter (fun r =>
        match r.key with
        | none => true
        | some k => !((groupIdsOf g).contains k)) = [] := by
      rw [List.filter_eq_nil_iff]
      intro r hr
      obtain ⟨k, hk⟩ := Option.isSome_iff_exists.mp (hg r hr)
      rw [hk]
      simp [List.contains, List.elem_eq_mem, hmem r hr k hk]
    have hgid : (groupIdsOf g).filter
        (fun k => !((groupIdsOf g).contains k)) = [] := by
      rw [List.filter_eq_nil_iff]
      intro k hk
      simp [List.contains, List.elem_eq_mem, hk]
    simp only [sqliteStep, hnil, hgid]
    simp

/-- C5 witness: the amended double-load idempotence at concrete one-row
files whose rows carry keys. -/
theorem C5_amended_witness :
    (∃ st, load_to_duckdb [some [(⟨some "a", "r"⟩ : DBRow)]] = .ok st
      ∧ load_to_duckdb [some [(⟨some "a", "r"⟩ : DBRow)],
            some [(⟨some "a", "r"⟩ : DBRow)]]
        = .ok { st with dups := st.dups + [(⟨some "a", "r"⟩ : DBRow)].length })
    ∧ (∃ st, load_to_sqlite [some [(⟨some "b", "s"⟩ : DBRow)]] = .ok st
      ∧ load_to_sqlite [some [(⟨some "b", "s"⟩ : DBRow)],
            some [(⟨some "b", "s"⟩ : DBRow)]]
        = .ok { st with dups := st.dups + [(⟨some "b", "s"⟩ : DBRow)].length }) :=
  C5_amended [⟨some "a", "r"⟩] [⟨some "b", "s"⟩] (by decide)

/-- C6 (counterexample): a batch whose FIRST file is unreadable makes the
whole run raise — that file is read outside the per-file try/except, so
the claim fails for a malformed first file. -/
theorem C6_counterexample :
    load_to_duckdb [none, some [{ key := some "k", record := "r" }]]
      = .error () := by
  rfl

/-- C6 (amended): for non-first files the claim holds: an unreadable
second file of a three-file batch is logged and skipped, and the run
processes the remaining files exactly as if the bad file were absent,
without raising; an unreadable FIRST file, however, aborts the run. -/
theorem C6_amended (f1 f3 : List DBRow) (rest : List (Option (List DBRow))) :
    load_to_duckdb ([some f1, none, some f3] ++ rest)
      = load_to_duckdb ([some f1, some f3] ++ rest)
    ∧ load_to_duckdb (none :: rest) = .error () := by
  exact ⟨rfl, rfl⟩

end ShopCatalog
